import Mathlib

/-!
Shallow embedding of `humanhash.py` (hasgeek/humanhash).

The module transforms hex digests into human-readable word strings.  Python
exceptions are modelled with the `PyError` sum type and `Except`:
`ValueError` carries its message, `ZeroDivisionError` models Python's `//`
with a zero divisor, `IndexError` models out-of-range list indexing.
Byte values are `Nat` (the Python ints produced by `int(x, 16)`).
-/

set_option maxRecDepth 8192

namespace Humanhash

/-- Python exceptions observable in this module. -/
inductive PyError where
  | valueError (msg : String)
  | zeroDivisionError
  | indexError
deriving DecidableEq, Repr

/-- The `ValueError` raised by `compress` when `target > len(bytes)`. -/
def insufficientInputError : PyError :=
  PyError.valueError "Fewer input bytes than requested output"

/-- The `ValueError` raised by `HumanHasher.__init__` on a bad wordlist. -/
def invalidWordlistError : PyError :=
  PyError.valueError "Wordlist must have exactly 256 items"

/-- `DEFAULT_WORDLIST` from the source, all 256 entries in order. -/
def DEFAULT_WORDLIST : List String := [
  "nlp", "nosql", "photoshop", "saas", "xcode", "sqlserver", "hadoop", "data-scientist",
  "mysql", "ninja", "openstack", "visual-studio", "code-review", "integrity", "mobile-app", "developer",
  "xml", "native-app", "apache-cordova", "candidate", "mumbai", "analytics", "flash", "cdns",
  "celery", "usability", "equity", "localizations", "junit", "css3", "activities", "meteor",
  "iit-bombay", "python", "evaluate", "rake", "postgis", "psd", "functional", "appstore",
  "background", "jenkins", "web-sockets", "excellent-negotiating", "mocha", "java-script", "ie9", "storyboard",
  "open-source", "data-mining", "make", "rabbitmq", "server", "digital-media", "scalable-architecture", "team",
  "mapkit", "security", "cms", "rack", "detailed-job", "crm", "front-end", "javascript-engineers",
  "foundation", "adobe", "rockstar", "dilbert", "android-sdks", "twitter", "startup", "job-requirements",
  "iim-calcutta", "layouts", "growth", "design", "kickass", "reviewer", "team-player", "postgres",
  "social-networks", "expert", "phonegap", "android-studio", "redis", "angular-js", "version", "seo-",
  "cakephp", "full-stack", "backend", "jasmin", "core", "hibernate", "java-programming", "business",
  "web", "internship", "aws", "javascript", "jasmine", "iconic", "web-developer", "tdd",
  "ajax", "china", "html5", "ubuntu", "apache", "strong", "graphic-designer", "laravel",
  "pune", "web-servcies", "postgresql", "constraint", "php-developer", "industry", "experience", "keen",
  "joomla", "mvc", "elasticsearch", "adobe-photoshop", "sass", "ionic", "new-delhi", "vacation-policy",
  "apple", "social-media", "devops", "cocoa", "unix", "api", "linux", "sounds",
  "ios-developer", "engineer", "iim-bangalore", "git", "java", "codeigniter", "free", "software-developer",
  "nosql-db", "perl", "json", "wordpress", "iphone", "criteria", "widgets", "mks",
  "lean-practices", "energy", "big-data-analytics", "define", "function", "iit", "newsletters", "company",
  "memory", "j2ee", "rspec", "ec2", "iit-delhi", "grunt", "ruby", "sdk",
  "jquery", "project-manager", "analyze", "illustrator", "tomcat", "embedded", "web-app", "rest-api",
  "work", "eclipse", "objective-c", "senior-architect", "lead", "lucene", "frameworks", "compensation",
  "open-gl", "stock-options", "jquery-mobile", "nashik", "android-apis", "restful", "requirejs", "user-interface",
  "sqlite", "documentation", "mongo", "springmvc", "big-data", "india", "sales", "linkedin",
  "koramangala", "iit-kanpur", "ansible", "expertise", "angularjs", "silicon-valley", "technology", "html-designer",
  "ipad-developer", "adwords", "webgl", "firmware", "vagrant", "indiranagar", "phonegap-developer", "ceo",
  "html", "esops", "machine-learning", "online", "performance", "android", "pandas", "css",
  "karma", "node", "gurgaon", "bonus", "mongodb", "senior-ux", "ios", "scalability",
  "mouth", "plan", "sql", "services", "tech-lead", "php", "data", "svn",
  "paas", "designers", "github", "technical-lead", "algorithm", "database", "url", "bootstrap",
  "san-francisco", "django", "client", "advocacy", "databases", "coordinate", "frontend-developers", "mac-os"]

/-- `HumanHasher`: holds the wordlist stored by `__init__`. -/
structure HumanHasher where
  wordlist : List String
deriving DecidableEq, Repr

/-- `HumanHasher.__init__`: rejects a wordlist whose length is not 256,
otherwise stores it on the instance. -/
def HumanHasher.init (wordlist : List String) : Except PyError HumanHasher :=
  if wordlist.length ≠ 256 then Except.error invalidWordlistError
  else Except.ok ⟨wordlist⟩

/-- `DEFAULT_HASHER = HumanHasher()` (module scope; construction succeeds). -/
def DEFAULT_HASHER : HumanHasher := ⟨DEFAULT_WORDLIST⟩

/-- `HumanHasher.compress(bytes, target)`.  Python raises `ValueError` when
`target > len(bytes)`; otherwise `length // target` raises
`ZeroDivisionError` when `target == 0` (modelled by the second branch, since
Lean's `Nat` division would silently return 0 there).  Otherwise: slice
`bytes` into `target` segments of `seg_size = length // target` bytes,
extend the last segment with the leftover `bytes[target*seg_size:]`, and
XOR-reduce every segment from 0. -/
def compress (bytes : List Nat) (target : Nat) : Except PyError (List Nat) :=
  let length := bytes.length
  if target > length then
    Except.error insufficientInputError
  else if target = 0 then
    Except.error PyError.zeroDivisionError
  else
    let seg_size := length / target
    let segments := (List.range target).map
      (fun i => (bytes.drop (i * seg_size)).take seg_size)
    let segments := segments.dropLast ++
      [segments.getLastD [] ++ bytes.drop (target * seg_size)]
    Except.ok (segments.map (fun seg => seg.foldl (· ^^^ ·) 0))

/-- The compression algorithm as the spec words it: `segSize = L div target`;
the input is partitioned in order into `target` contiguous segments of
length `segSize`, the `L mod target` remainder bytes are appended to the
last segment only, and each segment is folded with XOR from 0. -/
def specCompress (input : List Nat) (target : Nat) : List Nat :=
  let segSize := input.length / target
  (List.range target).map (fun i =>
    ((input.drop (i * segSize)).take segSize ++
      (if i + 1 = target then input.drop (target * segSize) else [])).foldl
      (· ^^^ ·) 0)

/-- Hex value of one character, as accepted by `int(x, 16)` for the
digit characters `0`-`9`, `a`-`f`, `A`-`F`. -/
def hexDigitVal (c : Char) : Option Nat :=
  let n := c.toNat
  if 48 ≤ n ∧ n ≤ 57 then some (n - 48)
  else if 97 ≤ n ∧ n ≤ 102 then some (n - 97 + 10)
  else if 65 ≤ n ∧ n ≤ 70 then some (n - 65 + 10)
  else none

/-- `zip(hexdigest[::2], hexdigest[1::2])`: consecutive character pairs; a
trailing unpaired character is dropped by `zip`. -/
def pairChars : List Char → List (Char × Char)
  | [] => []
  | [_] => []
  | a :: b :: rest => (a, b) :: pairChars rest

/-- `int(''.join(pair), 16)` on one character pair: the byte value
`16*hi + lo`, or `ValueError` when a character is not a hex digit. -/
def parseByte (p : Char × Char) : Except PyError Nat :=
  match hexDigitVal p.1, hexDigitVal p.2 with
  | some hi, some lo => Except.ok (16 * hi + lo)
  | _, _ => Except.error (PyError.valueError "invalid literal for int() with base 16")

/-- Effectful `map`, modelling a Python `map`/comprehension whose body may
raise: the first raise aborts the whole list. -/
def mapExcept (f : α → Except PyError β) : List α → Except PyError (List β)
  | [] => Except.ok []
  | x :: xs =>
    match f x, mapExcept f xs with
    | Except.ok y, Except.ok ys => Except.ok (y :: ys)
    | Except.error e, _ => Except.error e
    | Except.ok _, Except.error e => Except.error e

/-- The digest-parsing step of `humanize`: pair up the characters of the hex
string and parse each pair as one byte. -/
def parseDigest (s : String) : Except PyError (List Nat) :=
  mapExcept parseByte (pairChars s.data)

/-- `self.wordlist[byte]`: list indexing, `IndexError` when out of range. -/
def lookupWord (wl : List String) (b : Nat) : Except PyError String :=
  if h : b < wl.length then Except.ok (wl.get ⟨b, h⟩)
  else Except.error PyError.indexError

/-- `HumanHasher.humanize(hexdigest, words, separator)`: parse the digest
into bytes, compress to `words` bytes, map each through the wordlist, join
with the separator. -/
def HumanHasher.humanize (h : HumanHasher) (hexdigest : String) (words : Nat)
    (separator : String) : Except PyError String :=
  match parseDigest hexdigest with
  | Except.error e => Except.error e
  | Except.ok bytes =>
    match compress bytes words with
    | Except.error e => Except.error e
    | Except.ok compressed =>
      match mapExcept (lookupWord h.wordlist) compressed with
      | Except.error e => Except.error e
      | Except.ok toks => Except.ok (String.intercalate separator toks)

/-- `str(uuid).replace('-', '')`: remove every dash. -/
def stripDashes (s : String) : String :=
  String.mk (s.data.filter (fun c => c != '-'))

/-- `HumanHasher.uuid(**params)` with the random UUID source injected as
`uuidStr` (the UUID's canonical string form): strip the dashes, humanize the
resulting digest forwarding the options, and return both strings. -/
def HumanHasher.uuid (h : HumanHasher) (uuidStr : String) (words : Nat)
    (separator : String) : Except PyError (String × String) :=
  let digest := stripDashes uuidStr
  match h.humanize digest words separator with
  | Except.error e => Except.error e
  | Except.ok s => Except.ok (s, digest)

example : DEFAULT_WORDLIST.length = 256 := rfl

/-! ## Basic lemmas about `compress` -/

theorem compress_eq_specCompress (bytes : List Nat) (target : Nat)
    (h1 : 1 ≤ target) (h2 : target ≤ bytes.length) :
    compress bytes target = Except.ok (specCompress bytes target) := by
  obtain ⟨t, rfl⟩ : ∃ t, target = t + 1 := ⟨target - 1, by omega⟩
  simp only [compress, specCompress]
  rw [if_neg (by omega), if_neg (by omega)]
  congr 1
  rw [List.range_succ, List.map_append, List.map_append, List.map_cons, List.map_nil,
    List.dropLast_concat, List.getLastD_concat, List.map_append, List.map_cons,
    List.map_nil, List.map_map]
  congr 1
  · apply List.map_congr_left
    intro i hi
    have hne : i + 1 ≠ t + 1 := by
      have := List.mem_range.mp hi
      omega
    simp [hne]
  · simp

theorem specCompress_length (input : List Nat) (target : Nat) :
    (specCompress input target).length = target := by
  simp [specCompress]

/-! ## Lemmas about parsing, byte bounds and wordlist lookup -/

theorem init_ok_wordlist (wl : List String) (h : HumanHasher)
    (he : HumanHasher.init wl = Except.ok h) : h.wordlist = wl := by
  by_cases hl : wl.length = 256
  · have hok : HumanHasher.init wl = Except.ok ⟨wl⟩ := by
      simp [HumanHasher.init, hl]
    rw [hok] at he
    injection he with he2
    rw [← he2]
  · simp [HumanHasher.init, hl] at he

theorem init_ok_length (wl : List String) (h : HumanHasher)
    (he : HumanHasher.init wl = Except.ok h) : wl.length = 256 := by
  by_cases hl : wl.length = 256
  · exact hl
  · simp [HumanHasher.init, hl] at he

theorem hexDigitVal_lt (c : Char) (n : Nat) (h : hexDigitVal c = some n) :
    n < 16 := by
  simp only [hexDigitVal] at h
  split_ifs at h with h1 h2 h3 <;> simp_all <;> omega

theorem xor_lt_256 (a b : Nat) (ha : a < 256) (hb : b < 256) :
    a ^^^ b < 256 := by
  have h1 : a < 2 ^ 8 := lt_of_lt_of_le ha (by norm_num)
  have h2 : b < 2 ^ 8 := lt_of_lt_of_le hb (by norm_num)
  exact lt_of_lt_of_le (Nat.xor_lt_two_pow h1 h2) (by norm_num)

theorem foldl_xor_lt : ∀ (l : List Nat) (acc : Nat), acc < 256 →
    (∀ x ∈ l, x < 256) → l.foldl (· ^^^ ·) acc < 256 := by
  intro l
  induction l with
  | nil => intro acc ha _; simpa using ha
  | cons x t ih =>
    intro acc ha hall
    simp only [List.foldl_cons]
    apply ih
    · exact xor_lt_256 acc x ha (hall x (by simp))
    · intro y hy
      exact hall y (by simp [hy])

theorem specCompress_mem_lt (input : List Nat) (target : Nat)
    (hin : ∀ x ∈ input, x < 256) :
    ∀ y ∈ specCompress input target, y < 256 := by
  intro y hy
  simp only [specCompress, List.mem_map] at hy
  obtain ⟨i, hi, rfl⟩ := hy
  apply foldl_xor_lt _ 0 (by norm_num)
  intro x hx
  rcases List.mem_append.mp hx with hx | hx
  · exact hin x (List.drop_subset _ _ (List.take_subset _ _ hx))
  · by_cases hc : i + 1 = target
    · rw [if_pos hc] at hx
      exact hin x (List.drop_subset _ _ hx)
    · rw [if_neg hc] at hx
      exact absurd hx (List.not_mem_nil x)

theorem pairChars_length (cs : List Char) :
    (pairChars cs).length = cs.length / 2 := by
  induction cs using pairChars.induct with
  | case1 => rfl
  | case2 c =>
    simp [pairChars]
  | case3 a b rest ih =>
    simp only [pairChars, List.length_cons, ih]
    omega

theorem pairChars_mem (cs : List Char) (a b : Char)
    (hab : (a, b) ∈ pairChars cs) : a ∈ cs ∧ b ∈ cs := by
  induction cs using pairChars.induct with
  | case1 => simp [pairChars] at hab
  | case2 c => simp [pairChars] at hab
  | case3 x y rest ih =>
    simp only [pairChars, List.mem_cons, Prod.mk.injEq] at hab
    rcases hab with ⟨rfl, rfl⟩ | hab
    · simp
    · have := ih hab
      simp [this.1, this.2]

theorem pairChars_dropLast_odd (cs : List Char) (hodd : cs.length % 2 = 1) :
    pairChars cs = pairChars cs.dropLast := by
  induction cs using pairChars.induct with
  | case1 => simp at hodd
  | case2 c => rfl
  | case3 x y rest ih =>
    have hr : rest.length % 2 = 1 := by
      simp only [List.length_cons] at hodd
      omega
    have hne : rest ≠ [] := by
      intro h0
      rw [h0] at hr
      simp at hr
    have hdl : (x :: y :: rest).dropLast = x :: y :: rest.dropLast := by
      rcases rest with _ | ⟨r, rs⟩
      · exact absurd rfl hne
      · rfl
    rw [hdl]
    simp only [pairChars]
    rw [ih hr]

theorem mapExcept_parse_ok (ps : List (Char × Char))
    (hall : ∀ p ∈ ps, (hexDigitVal p.1).isSome = true ∧
      (hexDigitVal p.2).isSome = true) :
    ∃ bs, mapExcept parseByte ps = Except.ok bs ∧ bs.length = ps.length ∧
      ∀ b ∈ bs, b < 256 := by
  induction ps with
  | nil => exact ⟨[], rfl, rfl, by simp⟩
  | cons p t ih =>
    obtain ⟨h1, h2⟩ := hall p (by simp)
    obtain ⟨hi, hhi⟩ := Option.isSome_iff_exists.mp h1
    obtain ⟨lo, hlo⟩ := Option.isSome_iff_exists.mp h2
    obtain ⟨bs, hbs, hlen, hb⟩ := ih (fun q hq => hall q (by simp [hq]))
    refine ⟨(16 * hi + lo) :: bs, ?_, by simp [hlen], ?_⟩
    · simp [mapExcept, parseByte, hhi, hlo, hbs]
    · intro b hb2
      rcases List.mem_cons.mp hb2 with rfl | hmem
      · have hv1 := hexDigitVal_lt p.1 hi hhi
        have hv2 := hexDigitVal_lt p.2 lo hlo
        omega
      · exact hb b hmem

theorem mapExcept_lookup_ok (wl : List String) (bs : List Nat)
    (hall : ∀ b ∈ bs, b < wl.length) :
    ∃ toks, mapExcept (lookupWord wl) bs = Except.ok toks ∧
      toks.length = bs.length ∧ ∀ t ∈ toks, t ∈ wl := by
  induction bs with
  | nil => exact ⟨[], rfl, rfl, by simp⟩
  | cons b t ih =>
    have hb : b < wl.length := hall b (by simp)
    obtain ⟨toks, htoks, hlen, hmem⟩ := ih (fun q hq => hall q (by simp [hq]))
    refine ⟨wl.get ⟨b, hb⟩ :: toks, ?_, by simp [hlen], ?_⟩
    · simp [mapExcept, lookupWord, hb, htoks]
    · intro x hx
      rcases List.mem_cons.mp hx with rfl | hx2
      · exact List.get_mem wl b hb
      · exact hmem x hx2

theorem length_filter_not_dash (l : List Char) :
    (l.filter (fun c => c != '-')).length +
      (l.filter (fun c => c == '-')).length = l.length := by
  induction l with
  | nil => rfl
  | cons a t ih =>
    simp only [List.filter_cons]
    simp only [bne] at ih ⊢
    by_cases ha : a = '-'
    · subst ha
      simp
      omega
    · simp [ha]
      omega

/-! ## Claim theorems -/

/-- C1: for input of length L and 1 ≤ target ≤ L, `compress` returns exactly
the spec's algorithm: segSize = L div target, `target` contiguous segments
of length segSize with the L mod target remainder bytes appended to the last
segment only, each segment XOR-folded from 0; the output length is exactly
`target`. -/
theorem compress_correct (input : List Nat) (target : Nat)
    (h1 : 1 ≤ target) (h2 : target ≤ input.length) :
    compress input target = Except.ok (specCompress input target) ∧
    (specCompress input target).length = target :=
  ⟨compress_eq_specCompress input target h1 h2, specCompress_length input target⟩

theorem compress_correct_witness :
    compress [1, 2, 3, 4, 5] 2 = Except.ok (specCompress [1, 2, 3, 4, 5] 2) ∧
    (specCompress [1, 2, 3, 4, 5] 2).length = 2 :=
  compress_correct [1, 2, 3, 4, 5] 2 (by decide) (by decide)

/-- C6: the concrete test vector from the doctest:
`compress([96,173,141,13,135,27,96,149,128,130,151], 4) = [205,128,156,96]`. -/
theorem compress_test_vector :
    compress [96, 173, 141, 13, 135, 27, 96, 149, 128, 130, 151] 4 =
      Except.ok [205, 128, 156, 96] := rfl

/-- C2: for target ≥ 1, `compress` fails with the "fewer input bytes than
requested output" `ValueError` exactly when `target > len(bytes)`, and
returns normally when `target ≤ len(bytes)`. -/
theorem compress_insufficient_iff (bytes : List Nat) (target : Nat)
    (h : 1 ≤ target) :
    (compress bytes target = Except.error insufficientInputError ↔
      bytes.length < target) ∧
    (target ≤ bytes.length → ∃ out, compress bytes target = Except.ok out) := by
  constructor
  · constructor
    · intro he
      by_contra hnot
      have hle : target ≤ bytes.length := by omega
      rw [compress_eq_specCompress bytes target h hle] at he
      exact Except.noConfusion he
    · intro hlt
      simp only [compress]
      rw [if_pos hlt]
  · intro hle
    exact ⟨_, compress_eq_specCompress bytes target h hle⟩

theorem compress_insufficient_iff_witness :
    (compress [1, 2] 3 = Except.error insufficientInputError ↔
      List.length [1, 2] < 3) ∧
    (3 ≤ List.length [1, 2] → ∃ out, compress [1, 2] 3 = Except.ok out) :=
  compress_insufficient_iff [1, 2] 3 (by decide)

/-- C10: `compress` only guards `target > len(bytes)`, so `target = 0`
reaches the division `length // 0` and raises `ZeroDivisionError` for every
byte list; under the precondition `1 ≤ target ≤ len(bytes)` the error
branches are unreachable and `compress` returns normally. -/
theorem compress_zero_target (bytes : List Nat) :
    compress bytes 0 = Except.error PyError.zeroDivisionError ∧
    (∀ target, 1 ≤ target → target ≤ bytes.length →
      ∃ out, compress bytes target = Except.ok out) := by
  constructor
  · simp [compress]
  · intro target h1 h2
    exact ⟨_, compress_eq_specCompress bytes target h1 h2⟩

theorem compress_zero_target_witness :
    compress ([] : List Nat) 0 = Except.error PyError.zeroDivisionError ∧
    compress [5] 0 = Except.error PyError.zeroDivisionError ∧
    ∃ out, compress [5] 1 = Except.ok out :=
  ⟨(compress_zero_target []).1, (compress_zero_target [5]).1,
    (compress_zero_target [5]).2 1 (by decide) (by decide)⟩

/-- C5 counterexample: at the empty byte list, `compress(bytes, len(bytes))`
is `compress([], 0)`, which raises `ZeroDivisionError` instead of returning
the input. -/
theorem compress_identity_cex :
    compress ([] : List Nat) (List.length ([] : List Nat)) =
      Except.error PyError.zeroDivisionError ∧
    compress ([] : List Nat) (List.length ([] : List Nat)) ≠
      Except.ok ([] : List Nat) :=
  ⟨rfl, by intro h; simp [compress] at h⟩

/-- C5 (amended): for every nonempty byte list, compressing to
`len(bytes)` bytes returns the input unchanged: every segment is a single
byte, and XOR-folding a singleton from 0 is the identity. -/
theorem compress_identity (bytes : List Nat) (h : bytes ≠ []) :
    compress bytes bytes.length = Except.ok bytes := by
  have hL : 1 ≤ bytes.length := List.length_pos.mpr h
  rw [compress_eq_specCompress bytes bytes.length hL le_rfl]
  congr 1
  simp only [specCompress, Nat.div_self hL, Nat.mul_one, List.drop_length,
    ite_self, List.append_nil]
  apply List.ext_getElem
  · simp
  · intro i h1 h2
    rw [List.getElem_map, List.getElem_range]
    have ht : List.take 1 (List.drop i bytes) = [bytes[i]] := by
      rw [List.drop_eq_getElem_cons h2]
      rfl
    rw [ht]
    simp

theorem compress_identity_witness :
    compress [7, 9] (List.length [7, 9]) = Except.ok [7, 9] :=
  compress_identity [7, 9] (by decide)

/-- C7: construction fails with the wordlist `ValueError` exactly when the
wordlist length is not 256; on success the supplied wordlist is what the
instance stores. -/
theorem init_spec (wl : List String) :
    (HumanHasher.init wl = Except.error invalidWordlistError ↔
      wl.length ≠ 256) ∧
    (wl.length = 256 → HumanHasher.init wl = Except.ok ⟨wl⟩) ∧
    (∀ h, HumanHasher.init wl = Except.ok h → h.wordlist = wl) := by
  refine ⟨⟨fun he => ?_, fun hne => ?_⟩, fun hl => ?_, fun h he => ?_⟩
  · by_contra hnot
    simp [HumanHasher.init, hnot] at he
  · simp [HumanHasher.init, hne]
  · simp [HumanHasher.init, hl]
  · by_cases hl : wl.length = 256
    · have hok : HumanHasher.init wl = Except.ok ⟨wl⟩ := by
        simp [HumanHasher.init, hl]
      rw [hok] at he
      injection he with he2
      rw [← he2]
    · simp [HumanHasher.init, hl] at he

theorem init_spec_witness :
    HumanHasher.init (List.replicate 255 "x") =
      Except.error invalidWordlistError :=
  (init_spec (List.replicate 255 "x")).1.mpr (by decide)

/-- C3: for a wordlist of 256 entries, a hasher built from it, a valid
even-length hex digest, and 1 ≤ n ≤ len(d)/2, `humanize` returns exactly
`n` tokens joined by the separator, each token an element of the
wordlist. -/
theorem humanize_tokens (wl : List String) (H : HumanHasher) (d : String)
    (n : Nat) (s : String)
    (hH : HumanHasher.init wl = Except.ok H)
    (hhex : ∀ c ∈ d.data, (hexDigitVal c).isSome = true)
    (_heven : d.data.length % 2 = 0)
    (hn1 : 1 ≤ n) (hn2 : n ≤ d.data.length / 2) :
    ∃ toks : List String,
      H.humanize d n s = Except.ok (String.intercalate s toks) ∧
      toks.length = n ∧ ∀ t ∈ toks, t ∈ wl := by
  have hwl : H.wordlist = wl := init_ok_wordlist wl H hH
  have hwlen : wl.length = 256 := init_ok_length wl H hH
  obtain ⟨bs, hbs, hlen, hbound⟩ :=
    mapExcept_parse_ok (pairChars d.data) (by
      rintro ⟨pa, pb⟩ hp
      have := pairChars_mem d.data pa pb hp
      exact ⟨hhex pa this.1, hhex pb this.2⟩)
  have hlen2 : bs.length = d.data.length / 2 := by
    rw [hlen, pairChars_length]
  have hn : n ≤ bs.length := by omega
  have hcomp := compress_eq_specCompress bs n hn1 hn
  obtain ⟨toks, htoks, htlen, htmem⟩ :=
    mapExcept_lookup_ok H.wordlist (specCompress bs n) (by
      intro b hb
      rw [hwl, hwlen]
      exact specCompress_mem_lt bs n hbound b hb)
  refine ⟨toks, ?_, ?_, fun t ht => hwl ▸ htmem t ht⟩
  · simp only [HumanHasher.humanize, parseDigest, hbs, hcomp, htoks]
  · rw [htlen, specCompress_length]

theorem humanize_tokens_witness :
    ∃ toks : List String,
      DEFAULT_HASHER.humanize "60ad8d0d871b6095808297" 4 "-" =
        Except.ok (String.intercalate "-" toks) ∧
      toks.length = 4 ∧ ∀ t ∈ toks, t ∈ DEFAULT_WORDLIST :=
  humanize_tokens DEFAULT_WORDLIST DEFAULT_HASHER "60ad8d0d871b6095808297"
    4 "-" rfl (by decide) (by decide) (by decide) (by decide)

/-- C9: two hashers built from the same wordlist produce identical
`humanize` output for the same (hexdigest, words, separator); the
functions are pure, so repeated calls agree. -/
theorem humanize_deterministic (wl : List String) (h1 h2 : HumanHasher)
    (d : String) (n : Nat) (s : String)
    (e1 : HumanHasher.init wl = Except.ok h1)
    (e2 : HumanHasher.init wl = Except.ok h2) :
    h1.humanize d n s = h2.humanize d n s := by
  have w1 := init_ok_wordlist wl h1 e1
  have w2 := init_ok_wordlist wl h2 e2
  have : h1 = h2 := by
    cases h1
    cases h2
    simp_all
  rw [this]

theorem humanize_deterministic_witness :
    DEFAULT_HASHER.humanize "60ad8d0d871b6095808297" 4 "-" =
      DEFAULT_HASHER.humanize "60ad8d0d871b6095808297" 4 "-" :=
  humanize_deterministic DEFAULT_WORDLIST DEFAULT_HASHER DEFAULT_HASHER
    "60ad8d0d871b6095808297" 4 "-" rfl rfl

/-- C4 counterexample: the odd-length hexdigest
`"60ad8d0d871b60958082971"` does not make `humanize` fail; the unpaired
trailing `1` is silently dropped by the pairing `zip`, and the result is
identical to the even-length prefix's. -/
theorem humanize_odd_cex :
    DEFAULT_HASHER.humanize "60ad8d0d871b60958082971" 4 "-" =
      DEFAULT_HASHER.humanize "60ad8d0d871b6095808297" 4 "-" ∧
    ∃ out, DEFAULT_HASHER.humanize "60ad8d0d871b60958082971" 4 "-" =
      Except.ok out :=
  ⟨rfl, ⟨_, rfl⟩⟩

/-- C4 (amended): for every odd-length hexdigest, `humanize` silently
drops the unpaired trailing character: its result (success or failure) is
exactly that of `humanize` on the even-length prefix. -/
theorem humanize_odd_truncates (h : HumanHasher) (d : String) (n : Nat)
    (s : String) (hodd : d.data.length % 2 = 1) :
    h.humanize d n s = h.humanize (String.mk d.data.dropLast) n s := by
  have hpd : parseDigest d = parseDigest (String.mk d.data.dropLast) := by
    unfold parseDigest
    rw [pairChars_dropLast_odd d.data hodd]
  unfold HumanHasher.humanize
  rw [hpd]

theorem humanize_odd_truncates_witness :
    DEFAULT_HASHER.humanize "abc" 1 "-" =
      DEFAULT_HASHER.humanize (String.mk "abc".data.dropLast) 1 "-" :=
  humanize_odd_truncates DEFAULT_HASHER "abc" 1 "-" (by decide)

/-- C8: with the random source injected as the UUID's canonical string
(36 characters, 4 dashes), `uuid` returns the pair of the humanized string
and the dash-stripped 32-character hex digest, forwarding the options to
`humanize` unchanged (errors included). -/
theorem uuid_spec (H : HumanHasher) (u : String) (n : Nat) (s : String)
    (hlen : u.data.length = 36)
    (hdash : (u.data.filter (fun c => c == '-')).length = 4) :
    (stripDashes u).length = 32 ∧
    H.uuid u n s = Except.map (fun str => (str, stripDashes u))
      (H.humanize (stripDashes u) n s) := by
  constructor
  · have hsplit := length_filter_not_dash u.data
    simp only [stripDashes, String.length]
    omega
  · simp only [HumanHasher.uuid]
    cases hh : H.humanize (stripDashes u) n s with
    | error e => simp [hh, Except.map]
    | ok str => simp [hh, Except.map]

theorem uuid_spec_witness :
    (stripDashes "01234567-89ab-cdef-0123-456789abcdef").length = 32 ∧
    DEFAULT_HASHER.uuid "01234567-89ab-cdef-0123-456789abcdef" 4 "-" =
      Except.map
        (fun str => (str, stripDashes "01234567-89ab-cdef-0123-456789abcdef"))
        (DEFAULT_HASHER.humanize
          (stripDashes "01234567-89ab-cdef-0123-456789abcdef") 4 "-") :=
  uuid_spec DEFAULT_HASHER "01234567-89ab-cdef-0123-456789abcdef" 4 "-"
    (by decide) (by decide)

end Humanhash
